import Mathlib

/-!
Verification of the `stackalloc` crate (safe runtime stack allocations) against its
specification.  The development shallowly embeds the Rust sources:

* `src/lib.rs` — `alloca`, `alloca_zeroed`, `stackalloc_uninit`, `stackalloc_with`,
  and the helper `align_buffer_to`;
* `src/ffi.rs` / the native trampoline `alloca_trampoline_.c` (the C file is not part
  of the sources; its behaviour is modelled from the spec);
* `src/avec.rs` — the hybrid stack/heap buffer `AVec`.

Machine addresses and byte contents are modelled as `Nat`; `MaybeUninit<T>` is
`Option T` (with `none` standing for an uninitialised slot); a closure that may
panic is reified as a function into `Except P T`, where `Except.error p` stands for
an unwind carrying payload `p`.  Reading a union field other than the one last
written (beyond the shared `repr(C)` first field, which the source itself justifies)
is modelled as `Option.none` — undefined behaviour.
-/

namespace Stackalloc

/-- A Rust byte slice built by `slice::from_raw_parts_mut`: a base address together
with the bytes it refers to.  Slots are `MaybeUninit<u8>`, i.e. `Option Nat`. -/
structure ByteSlice where
  addr : Nat
  data : List (Option Nat)

/-- Models `slice::from_raw_parts_mut(ptr, size)` at `lib.rs:158`: the slice covers
exactly `size` bytes starting at `addr`, reading contents from the memory `mem`. -/
def from_raw_parts (mem : Nat → Option Nat) (addr size : Nat) : ByteSlice :=
  { addr := addr, data := (List.range size).map (fun i => mem (addr + i)) }

/-- Outcome of one run of the native trampoline: the deferred result produced by the
callback, the stack pointer while the callback ran, and the stack pointer after the
trampoline returned. -/
structure TrampRun (A : Type) where
  result : A
  sp_during : Nat
  sp_after : Nat

/-- Modelled from the spec: the native `_alloca_trampoline` (file
`alloca_trampoline_.c`, compiled by `build.rs` but not present among the sources).
Per the spec (§4.1, §6) and the contract stated in `ffi.rs`: it extends the stack
pointer by the requested `size`, invokes the callback exactly once with the address
of the fresh region, and retracts the stack pointer to its original value before
returning; a `size` of 0 performs no extension (no allocation) and the callback
still runs. -/
def alloca_trampoline (sp size addr : Nat) (cb : Nat → A) : TrampRun A :=
  { result := cb addr, sp_during := sp + size, sp_after := sp }

/-- Result of a call to one of the public allocation functions, as observed by its
direct caller: the value (or re-raised panic) it delivers, the stack pointer while
the closure ran, and the stack pointer at the moment it returns. -/
structure AllocResult (P T : Type) where
  val : Except P T
  sp_during : Nat
  sp_after : Nat

/-- Embeds `alloca` (`lib.rs:150-186`): the inner closure builds the slice from the
trampoline's pointer and the requested `size`, runs the caller's closure with the
unwind caught (`panic::catch_unwind`, reified here as the `Except` value), stores
the outcome in the deferred slot `rval`, and after the trampoline has returned the
outcome is matched: a normal value is returned, a caught panic is re-raised
(`panic::resume_unwind`) to the caller with its payload unchanged. -/
def alloca {P T : Type} (sp size addr : Nat) (mem : Nat → Option Nat)
    (cb : ByteSlice → Except P T) : AllocResult P T :=
  let run := alloca_trampoline sp size addr (fun ptr => cb (from_raw_parts mem ptr size))
  match run.result with
  | Except.ok v => ⟨Except.ok v, run.sp_during, run.sp_after⟩
  | Except.error p => ⟨Except.error p, run.sp_during, run.sp_after⟩

theorem alloca_val {P T : Type} (sp size addr : Nat) (mem : Nat → Option Nat)
    (cb : ByteSlice → Except P T) :
    (alloca sp size addr mem cb).val = cb (from_raw_parts mem addr size) := by
  unfold alloca alloca_trampoline
  cases h : cb (from_raw_parts mem addr size) <;> simp [h]

theorem alloca_sp_after {P T : Type} (sp size addr : Nat) (mem : Nat → Option Nat)
    (cb : ByteSlice → Except P T) :
    (alloca sp size addr mem cb).sp_after = sp := by
  unfold alloca alloca_trampoline
  cases h : cb (from_raw_parts mem addr size) <;> simp [h]

theorem alloca_sp_during {P T : Type} (sp size addr : Nat) (mem : Nat → Option Nat)
    (cb : ByteSlice → Except P T) :
    (alloca sp size addr mem cb).sp_during = sp + size := by
  unfold alloca alloca_trampoline
  cases h : cb (from_raw_parts mem addr size) <;> simp [h]

theorem from_raw_parts_length (mem : Nat → Option Nat) (addr size : Nat) :
    (from_raw_parts mem addr size).data.length = size := by
  simp [from_raw_parts]

/-- Claim C1: for every `size` (including 0), `alloca`/`with_stack_bytes` invokes the
callback with a byte slice of length exactly `size` and returns the callback's
return value; in particular `alloca size (fun buf => buf.len)` returns `size`; and
for `size = 0` the callback receives a slice of length 0 while the trampoline
performs no stack extension (no allocation). -/
theorem alloca_slice_len_exact (P : Type) (sp size addr : Nat) (mem : Nat → Option Nat) :
    (alloca (P := P) sp size addr mem
        (fun buf => Except.ok buf.data.length)).val = Except.ok size
    ∧ (∀ (T : Type) (f : ByteSlice → T),
        (alloca (P := P) sp size addr mem (fun buf => Except.ok (f buf))).val
          = Except.ok (f (from_raw_parts mem addr size)))
    ∧ (from_raw_parts mem addr size).data.length = size
    ∧ (alloca (P := P) sp 0 addr mem
        (fun buf => Except.ok buf.data.length)).sp_during = sp
    ∧ (from_raw_parts mem addr 0).data.length = 0 := by
  refine ⟨?_, ?_, ?_, ?_, ?_⟩
  · rw [alloca_val]; simp [from_raw_parts]
  · intro T f; rw [alloca_val]
  · exact from_raw_parts_length mem addr size
  · rw [alloca_sp_during]; omega
  · simp [from_raw_parts]

/-- Claim C2: a panic of the closure is caught at the foreign-call boundary (the
trampoline's callback never returns an unwind), the stack region is retracted
(`sp_after = sp`), and the panic is then re-raised by `alloca` itself to its direct
caller with the original payload unchanged — while a closure returning normally with
`v` makes `alloca` return exactly `v`.  Both cases are the single equation
`(alloca …).val = cb slice`: the outcome delivered to the caller is exactly the
closure's own outcome, never swallowed.  A subsequent unrelated allocation that
starts from the returned stack pointer again behaves as its own closure dictates. -/
theorem alloca_panic_transparent (P T : Type) (sp size addr : Nat)
    (mem : Nat → Option Nat) (cb : ByteSlice → Except P T) :
    (alloca sp size addr mem cb).val = cb (from_raw_parts mem addr size)
    ∧ (alloca sp size addr mem cb).sp_after = sp
    ∧ (∀ (s2 : Nat) (g : ByteSlice → Except P T),
        (alloca (alloca sp size addr mem cb).sp_after s2 addr mem g).val
          = g (from_raw_parts mem addr s2)
        ∧ (alloca (alloca sp size addr mem cb).sp_after s2 addr mem g).sp_after
          = (alloca sp size addr mem cb).sp_after) := by
  refine ⟨alloca_val sp size addr mem cb, alloca_sp_after sp size addr mem cb, ?_⟩
  intro s2 g
  exact ⟨alloca_val _ s2 addr mem g, alloca_sp_after _ s2 addr mem g⟩

/-- Models `ptr::write_bytes(buf.as_mut_ptr(), 0, buf.len())` at `lib.rs:233`: every
byte of the slice is overwritten with 0 (which also initialises each slot). -/
def write_bytes (s : ByteSlice) : ByteSlice :=
  { addr := s.addr, data := s.data.map (fun _ => some 0) }

/-- Models `helpers::slice_assume_init_mut` (`lib.rs:216-219`): reinterpret a slice of
`MaybeUninit<u8>` as a slice of `u8`.  An initialised slot yields its byte; the
default for a (contractually absent) uninitialised slot is 0. -/
def slice_assume_init_mut (s : ByteSlice) : List Nat :=
  s.data.map (fun x => x.getD 0)

/-- Embeds `alloca_zeroed` (`lib.rs:227-237`): call `alloca` with a closure that
zeroes the buffer, reinterprets it as initialised, and hands it to the caller's
closure. -/
def alloca_zeroed {P T : Type} (sp size addr : Nat) (mem : Nat → Option Nat)
    (cb : List Nat → Except P T) : AllocResult P T :=
  alloca sp size addr mem (fun buf => cb (slice_assume_init_mut (write_bytes buf)))

theorem zeroed_view (s : ByteSlice) :
    slice_assume_init_mut (write_bytes s) = List.replicate s.data.length 0 := by
  unfold slice_assume_init_mut write_bytes
  simp [List.map_const']

/-- Claim C7: for every `size`, `alloca_zeroed`/`with_zeroed_stack_bytes` writes zero
to every byte of the borrowed region before invoking the caller's closure: the
closure observes a slice of length `size` in which every byte equals 0. -/
theorem alloca_zeroed_all_zero (P T : Type) (sp size addr : Nat)
    (mem : Nat → Option Nat) (f : List Nat → T) :
    (alloca_zeroed (P := P) sp size addr mem (fun l => Except.ok (f l))).val
      = Except.ok (f (List.replicate size 0))
    ∧ (List.replicate size (0 : Nat)).length = size
    ∧ (∀ b ∈ List.replicate size (0 : Nat), b = 0) := by
  refine ⟨?_, by simp, by simp⟩
  unfold alloca_zeroed
  rw [alloca_val, zeroed_view, from_raw_parts_length]

/-- Embeds `helpers::align_buffer_to` (`lib.rs:193-197`):
`(ptr + align_of::<T>()) - ptr % align_of::<T>()`. -/
def align_buffer_to (ptr align : Nat) : Nat :=
  ptr + align - ptr % align

/-- A typed slice built by `slice::from_raw_parts_mut(abuf, size)` at `lib.rs:253`:
base address plus `size` elements of `MaybeUninit<T>`. -/
structure TypedSlice (T : Type) where
  addr : Nat
  elems : List (Option T)

/-- Embeds `stackalloc_uninit` (`lib.rs:245-256`): compute
`size_bytes = size_of::<T>() * size + align_of::<T>()`, `alloca` that many raw
bytes, align the buffer's base pointer to `T`, and hand the callback the typed
slice of `size` elements starting at the aligned address.  The element type's
layout enters as the two parameters `s` (`size_of::<T>()`) and `a`
(`align_of::<T>()`); `memT` reads the uninitialised memory at an element address. -/
def stackalloc_uninit {P T U : Type} (s a : Nat) (size sp addr : Nat)
    (mem : Nat → Option Nat) (memT : Nat → Option T)
    (cb : TypedSlice T → Except P U) : AllocResult P U :=
  let size_bytes := s * size + a
  alloca sp size_bytes addr mem (fun buf =>
    let abuf := align_buffer_to buf.addr a
    cb { addr := abuf, elems := (List.range size).map (fun i => memT (abuf + i * s)) })

/-- The `debug_assert!` at `lib.rs:251`: the aligned pointer lies inside
`buf.as_ptr_range()`, i.e. `addr ≤ abuf < addr + size_bytes`. -/
def stackalloc_uninit_assert (s a size addr : Nat) : Prop :=
  addr ≤ align_buffer_to addr a ∧ align_buffer_to addr a < addr + (s * size + a)

theorem align_buffer_to_eq (ptr align : Nat) (h : 0 < align) :
    align_buffer_to ptr align = align * (ptr / align) + align := by
  have hd := Nat.div_add_mod ptr align
  have hm : ptr % align < align := Nat.mod_lt ptr h
  unfold align_buffer_to
  omega

theorem align_buffer_to_mod (ptr align : Nat) (h : 0 < align) :
    align_buffer_to ptr align % align = 0 := by
  rw [align_buffer_to_eq ptr align h]
  simp [Nat.add_mod, Nat.mul_mod_right]

/-- Claim C5: for every element layout (`s = size_of::<T>()`, `a = align_of::<T>()`
with `a ≥ 1`) and every `size`, `stackalloc_uninit` allocates exactly
`s * size + a` raw bytes of stack, and hands the callback a sub-slice of exactly
`size` elements whose base address is aligned to `a` and whose bytes all lie within
the allocated byte region `[addr, addr + s * size + a)`. -/
theorem stackalloc_uninit_layout (P T U : Type) (s a size sp addr : Nat)
    (mem : Nat → Option Nat) (memT : Nat → Option T) (f : TypedSlice T → U)
    (ha : 0 < a) :
    (stackalloc_uninit (P := P) s a size sp addr mem memT
        (fun buf => Except.ok (f buf))).sp_during = sp + (s * size + a)
    ∧ (stackalloc_uninit (P := P) s a size sp addr mem memT
        (fun buf => Except.ok (f buf))).val
      = Except.ok (f ⟨align_buffer_to addr a,
          (List.range size).map (fun i => memT (align_buffer_to addr a + i * s))⟩)
    ∧ ((List.range size).map (fun i => memT (align_buffer_to addr a + i * s))).length = size
    ∧ align_buffer_to addr a % a = 0
    ∧ (∀ j, j < s * size →
        addr ≤ align_buffer_to addr a + j
        ∧ align_buffer_to addr a + j < addr + (s * size + a)) := by
  have hd := Nat.div_add_mod addr a
  have hm : addr % a < a := Nat.mod_lt addr ha
  refine ⟨?_, ?_, by simp, align_buffer_to_mod addr a ha, ?_⟩
  · unfold stackalloc_uninit
    rw [alloca_sp_during]
  · unfold stackalloc_uninit
    rw [alloca_val]
    simp [from_raw_parts]
  · intro j hj
    unfold align_buffer_to
    omega

/-- Claim C5 witness: layout `s = 8`, `a = 4`, `size = 3`, base address 10. -/
theorem stackalloc_uninit_layout_witness :
    0 < 4
    ∧ ((stackalloc_uninit (P := Nat) (T := Nat) 8 4 3 0 10 (fun _ => none) (fun _ => none)
          (fun buf => Except.ok buf.elems.length)).sp_during = 28
      ∧ (stackalloc_uninit (P := Nat) (T := Nat) 8 4 3 0 10 (fun _ => none) (fun _ => none)
          (fun buf => Except.ok buf.elems.length)).val = Except.ok 3
      ∧ ((List.range 3).map (fun _ => (none : Option Nat))).length = 3
      ∧ align_buffer_to 10 4 % 4 = 0
      ∧ (∀ j, j < 8 * 3 →
          10 ≤ align_buffer_to 10 4 + j
          ∧ align_buffer_to 10 4 + j < 10 + (8 * 3 + 4))) :=
  ⟨by decide,
    stackalloc_uninit_layout Nat Nat Nat 8 4 3 0 10 (fun _ => none) (fun _ => none)
      (fun b => b.elems.length) (by decide)⟩

/-- Claim C9: when `size_of::<T>() * count ≥ 1`, the aligned pointer computed by
`align_buffer_to` lies strictly within the allocated buffer of
`size_of::<T>() * count + align_of::<T>()` bytes, so the `debug_assert!` in
`stackalloc_uninit` holds; `align_buffer_to` always advances its argument by at
least one byte; a pointer already aligned to `T` is moved forward by exactly
`align_of::<T>()` bytes; and for `count = 0` the computed pointer can be
one-past-the-end of the allocation (witnessed at an aligned base address 0). -/
theorem align_buffer_to_bounds (addr a s size : Nat)
    (ha : 0 < a) (hs : 1 ≤ s * size) :
    stackalloc_uninit_assert s a size addr
    ∧ (addr ≤ align_buffer_to addr a
        ∧ align_buffer_to addr a < addr + (s * size + a))
    ∧ addr + 1 ≤ align_buffer_to addr a
    ∧ (addr % a = 0 → align_buffer_to addr a = addr + a)
    ∧ align_buffer_to 0 a = 0 + (s * 0 + a) := by
  have hd := Nat.div_add_mod addr a
  have hm : addr % a < a := Nat.mod_lt addr ha
  have h1 : addr ≤ align_buffer_to addr a := by unfold align_buffer_to; omega
  have h2 : align_buffer_to addr a < addr + (s * size + a) := by
    unfold align_buffer_to; omega
  refine ⟨⟨h1, h2⟩, ⟨h1, h2⟩, ?_, ?_, ?_⟩
  · unfold align_buffer_to; omega
  · intro h0; unfold align_buffer_to; omega
  · unfold align_buffer_to; simp

/-- Claim C9 witness: `addr = 8`, `align = 4`, `size_of * count = 2 * 4 = 8`. -/
theorem align_buffer_to_bounds_witness :
    0 < 4 ∧ 1 ≤ 2 * 4
    ∧ (stackalloc_uninit_assert 2 4 4 8
      ∧ (8 ≤ align_buffer_to 8 4 ∧ align_buffer_to 8 4 < 8 + (2 * 4 + 4))
      ∧ 8 + 1 ≤ align_buffer_to 8 4
      ∧ (8 % 4 = 0 → align_buffer_to 8 4 = 8 + 4)
      ∧ align_buffer_to 0 4 = 0 + (2 * 0 + 4)) :=
  ⟨by decide, by decide, align_buffer_to_bounds 8 4 2 4 (by decide) (by decide)⟩

/-- Observable side effects of an element type `T`: a construction by `init_with`, the
invocation of the caller's closure, or the destruction of one element. -/
inductive Ev (T : Type) where
  | init (v : T)
  | call
  | drop (v : T)

/-- Embeds `buf.fill_with(move || MaybeUninit::new(init_with()))` at `lib.rs:268`:
each slot of the buffer, in order, is overwritten with a fresh value from the
(stateful) initialiser, modelled as a function of the invocation index `k`; the
second component logs one `Ev.init` per invocation, in order. -/
def fill_with {T : Type} (init_with : Nat → T) :
    List (Option T) → Nat → List T × List (Ev T)
  | [], _ => ([], [])
  | _ :: rest, k =>
      let v := init_with k
      let r := fill_with init_with rest (k + 1)
      (v :: r.1, Ev.init v :: r.2)

/-- Embeds `stackalloc_with` (`lib.rs:263-281`): allocate `size` uninitialised slots
via `stackalloc_uninit`, fill every slot by repeated invocation of `init_with`,
run the caller's closure on the initialised slice, then — when
`mem::needs_drop::<T>()` holds — drop the `size` elements in place.  The returned
value is paired with the ordered log of construction/call/destruction events. -/
def stackalloc_with {P T U : Type} (s a : Nat) (size sp addr : Nat)
    (mem : Nat → Option Nat) (memT : Nat → Option T)
    (init_with : Nat → T) (needs_drop : Bool)
    (cb : List T → U) : AllocResult P (U × List (Ev T)) :=
  stackalloc_uninit s a size sp addr mem memT (fun buf =>
    let r := fill_with init_with buf.elems 0
    let ret := cb r.1
    let devs := if needs_drop then r.1.map Ev.drop else []
    Except.ok (ret, r.2 ++ Ev.call :: devs))

theorem fill_with_spec {T : Type} (init_with : Nat → T) (l : List (Option T)) :
    ∀ k, fill_with init_with l k
      = ((List.range l.length).map (fun i => init_with (k + i)),
         ((List.range l.length).map (fun i => init_with (k + i))).map Ev.init) := by
  induction l with
  | nil => intro k; rfl
  | cons x rest ih =>
      intro k
      have hr : (List.range (rest.length + 1)).map (fun i => init_with (k + i))
          = init_with k :: (List.range rest.length).map (fun i => init_with (k + 1 + i)) := by
        rw [List.range_succ_eq_map]
        simp only [List.map_cons, List.map_map, Nat.add_zero]
        refine congrArg _ (List.map_congr_left ?_)
        intro i _
        simp only [Function.comp_apply]
        exact congrArg init_with (by omega)
      have hu : fill_with init_with (x :: rest) k
          = (init_with k :: (fill_with init_with rest (k + 1)).1,
             Ev.init (init_with k) :: (fill_with init_with rest (k + 1)).2) := rfl
      rw [hu, ih (k + 1), List.length_cons, hr]
      simp [List.map_cons]

/-- Claim C6: for every `n` and initialiser, `stackalloc_with`
(`with_stack_slice_filled`) invokes the initialiser exactly `n` times, all before
the caller's closure runs, and after the closure returns it destroys exactly the
`n` constructed elements — for any element type whose construction/destruction has
observable side effects (for such a type `mem::needs_drop::<T>()` is true).  The
event log is literally `n` constructions, then the closure call, then the `n`
destructions of exactly the constructed values. -/
theorem stackalloc_with_trace (P T U : Type) (s a n sp addr : Nat)
    (mem : Nat → Option Nat) (memT : Nat → Option T)
    (init_with : Nat → T) (needs_drop : Bool) (cb : List T → U)
    (h : needs_drop = true) :
    (stackalloc_with (P := P) s a n sp addr mem memT init_with needs_drop cb).val
      = Except.ok (cb ((List.range n).map init_with),
          (((List.range n).map init_with).map Ev.init)
            ++ Ev.call :: (((List.range n).map init_with).map Ev.drop))
    ∧ ((List.range n).map init_with).length = n := by
  subst h
  refine ⟨?_, by simp⟩
  unfold stackalloc_with stackalloc_uninit
  rw [alloca_val]
  simp [fill_with_spec]

/-- Claim C6 witness: `n = 3`, initialiser `i ↦ i * 10`, closure `List.length`. -/
theorem stackalloc_with_trace_witness :
    true = true
    ∧ ((stackalloc_with (P := Nat) 1 1 3 0 0 (fun _ => none) (fun _ => none)
          (fun i => i * 10) true List.length).val
        = Except.ok (([0, 10, 20] : List Nat).length,
            [Ev.init 0, Ev.init 10, Ev.init 20, Ev.call,
             Ev.drop 0, Ev.drop 10, Ev.drop 20])
      ∧ (([0, 10, 20] : List Nat)).length = 3) :=
  ⟨rfl, stackalloc_with_trace Nat Nat Nat 1 1 3 0 0 (fun _ => none) (fun _ => none)
      (fun i => i * 10) true List.length rfl⟩

/-- Modelled from the spec: `stackalloc_with_iter` (`with_stack_slice_from_iter`) is
absent from the sources — only its tests (`tests.rs:3-14`) call it.  Per the spec
(§4.1): items are pulled from a possibly-infinite iterator until `count` items are
produced; if the iterator is exhausted with fewer items, the realized count — not
the requested one — is what the callback observes.  The iterator is modelled as the
list of items it can still yield. -/
def stackalloc_with_iter {T U : Type} (count : Nat) (iter : List T)
    (cb : List T → U) : U :=
  cb (iter.take count)

/-- Modelled from the spec: `stackalloc_from_iter_exact` is absent from the sources —
only its tests (`tests.rs:16-33`) call it.  Per the spec (§4.1, §6): the exact-length
variant consumes a whole finite sequence whose length determines the slice length. -/
def stackalloc_from_iter_exact {T U : Type} (iter : List T) (cb : List T → U) : U :=
  cb iter

/-- Claim C8: `stackalloc_with_iter` pulls from the iterator until `count` items are
produced, so the callback observes `min count (length of iterator)` items: exactly
`count` when the iterator suffices, the realized (smaller) count when it is
exhausted early; the exact-length variant hands the callback the whole finite
sequence, whose length determines the slice length. -/
theorem stackalloc_with_iter_spec (T U : Type) (count : Nat) (iter : List T)
    (cb : List T → U) :
    stackalloc_with_iter count iter cb = cb (iter.take count)
    ∧ stackalloc_with_iter count iter List.length = min count iter.length
    ∧ (iter.take count).length = min count iter.length
    ∧ stackalloc_from_iter_exact iter cb = cb iter
    ∧ stackalloc_from_iter_exact iter List.length = iter.length := by
  refine ⟨rfl, ?_, ?_, rfl, rfl⟩ <;>
    simp [stackalloc_with_iter, List.length_take]

/-- Embeds the `repr(C)` union `Internal<T>` of `avec.rs:36-41`, tagged by which
variant was last written.  `stack` models `StackBuffer { fill_ptr, buf_ptr }`
together with the written prefix of the backing store (the first `fill_ptr` slots,
the only ones the code ever reads); `heap` models
`HeapBuffer { _fill_ptr, buf: Vec<T> }`.  Both variants share the leading `usize`
field, so reading `fill_ptr` through either view is defined; reading any other
field of the variant that was not last written is undefined behaviour and is
modelled as `Option.none` at the use sites. -/
inductive Internal (T : Type) where
  | stack (fill_ptr : Nat) (written : List T)
  | heap (fill_ptr : Nat) (buf : List T)

/-- Embeds `AVec<'a, T>` (`avec.rs:44-51`): the inline capacity `stack_sz` (the
backing slice's length) and the union `inner`.  The backing slice itself is
represented only by its length and its written prefix. -/
structure AVec (T : Type) where
  stack_sz : Nat
  inner : Internal T

/-- Embeds `AVec::fill_ptr` (`avec.rs:82-88`): read the leading `usize` of the
union, which is defined for both variants because both are `repr(C)` with this
element first. -/
def AVec.fill_ptr {T : Type} (v : AVec T) : Nat :=
  match v.inner with
  | Internal.stack f _ => f
  | Internal.heap f _ => f

/-- Embeds `AVec::is_allocated` (`avec.rs:91-94`): `fill_ptr() >= stack_sz`. -/
def AVec.is_allocated {T : Type} (v : AVec T) : Bool :=
  decide (v.stack_sz ≤ v.fill_ptr)

/-- Embeds `AVec::new` (`avec.rs:97-111`): capacity is the backing slice's length,
the union starts as a `StackBuffer` with `fill_ptr = 0`, nothing written yet. -/
def AVec.new (T : Type) (c : Nat) : AVec T :=
  { stack_sz := c, inner := Internal.stack 0 [] }

/-- Embeds `AVec::push` (`avec.rs:127-146`) together with `AVec::move_to_heap`
(`avec.rs:113-124`).  If `is_allocated()`, push onto `inner.heap.buf` — defined
only if the heap variant was actually written (`none` models the undefined read of
a never-initialised `Vec` otherwise).  Else write the item at `fill_ptr`, increment
`fill_ptr`, and if `is_allocated()` now holds, move every written element to a
fresh heap vector whose `_fill_ptr` is `stack_sz`. -/
def AVec.push {T : Type} (v : AVec T) (item : T) : Option (AVec T) :=
  if v.is_allocated then
    match v.inner with
    | Internal.heap f buf => some { stack_sz := v.stack_sz, inner := Internal.heap f (buf ++ [item]) }
    | Internal.stack _ _ => none
  else
    match v.inner with
    | Internal.stack f written =>
        if v.stack_sz ≤ f + 1 then
          some { stack_sz := v.stack_sz,
                 inner := Internal.heap v.stack_sz (written ++ [item]) }
        else
          some { stack_sz := v.stack_sz, inner := Internal.stack (f + 1) (written ++ [item]) }
    | Internal.heap _ _ => none

/-- Embeds `AVec::len` (`avec.rs:149-159`): the heap vector's length when
`is_allocated()` (defined only if the heap variant was actually written — `none`
models the undefined read otherwise), else `fill_ptr()`. -/
def AVec.len {T : Type} (v : AVec T) : Option Nat :=
  if v.is_allocated then
    match v.inner with
    | Internal.heap _ buf => some buf.length
    | Internal.stack _ _ => none
  else some v.fill_ptr

/-- The elements currently stored by an `AVec`, in storage order: the written prefix
of the backing store while inline, the heap vector once spilled (a ghost
observation of memory, not an operation of the source). -/
def AVec.contents {T : Type} (v : AVec T) : List T :=
  match v.inner with
  | Internal.stack _ written => written
  | Internal.heap _ buf => buf

/-- Push each item of a list in order, propagating the undefined-behaviour marker. -/
def AVec.pushAll {T : Type} : AVec T → List T → Option (AVec T)
  | v, [] => some v
  | v, x :: rest =>
      match v.push x with
      | some w => AVec.pushAll w rest
      | none => none

/-- The state an `AVec` of capacity `c` reaches after pushing `items` (for `c ≥ 1`,
established below): inline with the written prefix while fewer than `c` items were
pushed, spilled with `_fill_ptr = c` afterwards. -/
def AVec.afterPushes {T : Type} (c : Nat) (items : List T) : AVec T :=
  if items.length < c then { stack_sz := c, inner := Internal.stack items.length items }
  else { stack_sz := c, inner := Internal.heap c items }

theorem AVec.push_afterPushes {T : Type} (c : Nat) (items : List T) (x : T) :
    (AVec.afterPushes c items).push x = some (AVec.afterPushes c (items ++ [x])) := by
  unfold AVec.afterPushes AVec.push AVec.is_allocated AVec.fill_ptr
  by_cases h1 : items.length < c
  · simp only [if_pos h1]
    by_cases h2 : items.length + 1 < c
    · simp only [List.length_append, List.length_singleton, if_pos h2]
      have hc : ¬ c ≤ items.length := by omega
      have hc2 : ¬ c ≤ items.length + 1 := by omega
      simp [hc, hc2]
    · simp only [List.length_append, List.length_singleton, if_neg h2]
      have hc : ¬ c ≤ items.length := by omega
      have hc2 : c ≤ items.length + 1 := by omega
      simp [hc, hc2]
  · simp only [if_neg h1]
    have hc : c ≤ c := le_refl c
    have h2 : ¬ items.length + 1 < c := by omega
    simp [hc, List.length_append, h2]

theorem AVec.pushAll_afterPushes {T : Type} (c : Nat) :
    ∀ (rest done : List T),
      AVec.pushAll (AVec.afterPushes c done) rest
        = some (AVec.afterPushes c (done ++ rest)) := by
  intro rest
  induction rest with
  | nil => intro done; simp [AVec.pushAll]
  | cons x xs ih =>
      intro done
      unfold AVec.pushAll
      rw [AVec.push_afterPushes c done x]
      simpa using ih (done ++ [x])

theorem AVec.afterPushes_inline {T : Type} (c : Nat) (items : List T)
    (h : items.length < c) :
    AVec.afterPushes c items
      = { stack_sz := c, inner := Internal.stack items.length items } := by
  unfold AVec.afterPushes
  rw [if_pos h]

theorem AVec.afterPushes_spilled {T : Type} (c : Nat) (items : List T)
    (h : c ≤ items.length) :
    AVec.afterPushes c items
      = { stack_sz := c, inner := Internal.heap c items } := by
  unfold AVec.afterPushes
  rw [if_neg (by omega)]

theorem AVec.new_eq_afterPushes {T : Type} (c : Nat) (hc : 1 ≤ c) :
    AVec.new T c = AVec.afterPushes c [] := by
  unfold AVec.new AVec.afterPushes
  simp only [List.length_nil]
  rw [if_pos (by omega)]

/-- Claim C3 (amended to backing capacity `c ≥ 1`): pushing `c + k` items (`k ≥ 1`)
into an `AVec` over a `c`-element backing slice yields `len() = c + k`, all values
stored in insertion order, and `is_allocated()` (spilled) true exactly from the
`c`-th push on — never before; at each intermediate state the fill counter is
`min i c` and `is_allocated()` is literally `fill_ptr() ≥ stack_sz`, so while
inline it equals `n ≥ c`. -/
theorem avec_push_spill (T : Type) (c k : Nat) (items : List T)
    (hc : 1 ≤ c) (hlen : items.length = c + k) (hk : 1 ≤ k) :
    ∃ v : AVec T, (AVec.new T c).pushAll items = some v
      ∧ v.len = some (c + k)
      ∧ v.contents = items
      ∧ v.is_allocated = true
      ∧ (∀ i, i ≤ items.length →
          ∃ w : AVec T, (AVec.new T c).pushAll (items.take i) = some w
            ∧ (w.is_allocated = true ↔ c ≤ i)
            ∧ w.fill_ptr = min i c
            ∧ w.is_allocated = decide (w.stack_sz ≤ w.fill_ptr)) := by
  have hcl : c ≤ items.length := by omega
  refine ⟨AVec.afterPushes c items, ?_, ?_, ?_, ?_, ?_⟩
  · rw [AVec.new_eq_afterPushes c hc]
    simpa using AVec.pushAll_afterPushes c items []
  · rw [AVec.afterPushes_spilled c items hcl]
    simp [AVec.len, AVec.is_allocated, AVec.fill_ptr, hlen]
  · rw [AVec.afterPushes_spilled c items hcl]
    rfl
  · rw [AVec.afterPushes_spilled c items hcl]
    simp [AVec.is_allocated, AVec.fill_ptr]
  · intro i hi
    have ht : (items.take i).length = i := by
      rw [List.length_take]; omega
    refine ⟨AVec.afterPushes c (items.take i), ?_, ?_, ?_, ?_⟩
    · rw [AVec.new_eq_afterPushes c hc]
      simpa using AVec.pushAll_afterPushes c (items.take i) []
    · by_cases h : i < c
      · rw [AVec.afterPushes_inline c _ (by omega)]
        simp only [AVec.is_allocated, AVec.fill_ptr, ht, decide_eq_true_eq]
      · rw [AVec.afterPushes_spilled c _ (by omega)]
        simp only [AVec.is_allocated, AVec.fill_ptr, decide_eq_true_eq]
        constructor
        · intro _; omega
        · intro _; omega
    · by_cases h : i < c
      · rw [AVec.afterPushes_inline c _ (by omega)]
        simp [AVec.fill_ptr, ht]
        omega
      · rw [AVec.afterPushes_spilled c _ (by omega)]
        simp [AVec.fill_ptr]
        omega
    · unfold AVec.is_allocated
      rfl

/-- Claim C3 witness: capacity 2, three pushes `[5, 6, 7]`. -/
theorem avec_push_spill_witness :
    1 ≤ 2 ∧ ([5, 6, 7] : List Nat).length = 2 + 1 ∧ 1 ≤ 1
    ∧ (∃ v : AVec Nat, (AVec.new Nat 2).pushAll [5, 6, 7] = some v
        ∧ v.len = some (2 + 1)
        ∧ v.contents = [5, 6, 7]
        ∧ v.is_allocated = true
        ∧ (∀ i, i ≤ ([5, 6, 7] : List Nat).length →
            ∃ w : AVec Nat, (AVec.new Nat 2).pushAll (([5, 6, 7] : List Nat).take i) = some w
              ∧ (w.is_allocated = true ↔ 2 ≤ i)
              ∧ w.fill_ptr = min i 2
              ∧ w.is_allocated = decide (w.stack_sz ≤ w.fill_ptr))) :=
  ⟨by decide, by decide, by decide,
    avec_push_spill Nat 2 1 [5, 6, 7] (by decide) (by decide) (by decide)⟩

/-- Claim C3 counterexample: for capacity `c = 0` and `k = 1` the claim fails — the
single push takes the already-spilled branch and reads the union's heap vector,
which was never written (`move_to_heap` never ran), so the code's behaviour is
undefined and `len()` does not come out as `0 + 1`. -/
theorem avec_push_capacity_zero_fails :
    ¬ (((AVec.new Nat 0).pushAll [42]).bind AVec.len = some (0 + 1)) := by
  decide

/-- Claim C4: evaluating the code at the failing input — an `AVec` over a
zero-capacity backing is already `is_allocated()` at construction
(`0 ≥ 0`), so the very first `push` takes the spilled branch and pushes onto the
union's `heap.buf`, a `Vec` that was never initialised (`move_to_heap` is never
called when `c = 0`): undefined behaviour instead of the promised migration. -/
theorem avec_capacity_zero_first_push_ub :
    (AVec.new Nat 0).is_allocated = true
    ∧ (AVec.new Nat 0).inner = Internal.stack 0 []
    ∧ (AVec.new Nat 0).push 42 = none := by
  refine ⟨by decide, rfl, ?_⟩
  rfl

/-- Claim C10 (amended): immediately after `AVec::new(backing)` and before any push,
`is_allocated()` is true iff the backing slice has length 0 — a freshly constructed
buffer over a zero-capacity backing already reports itself as spilled even though
no heap storage has been created (the union still holds the stack variant) — and
`len()` returns 0 for every nonempty backing slice; over a zero-length backing,
`len()` takes the spilled branch and reads the never-initialised heap vector, which
is undefined rather than 0. -/
theorem avec_new_fresh (T : Type) (c : Nat) (hc : 1 ≤ c) :
    (AVec.new T c).len = some 0
    ∧ (AVec.new T c).is_allocated = false
    ∧ (AVec.new T c).fill_ptr = 0
    ∧ (AVec.new T 0).is_allocated = true
    ∧ (AVec.new T 0).inner = Internal.stack 0 []
    ∧ (∀ c2 : Nat, ((AVec.new T c2).is_allocated = true ↔ c2 = 0)) := by
  have hna : (AVec.new T c).is_allocated = false := by
    simp only [AVec.new, AVec.is_allocated, AVec.fill_ptr, decide_eq_false_iff_not]
    omega
  refine ⟨?_, hna, rfl, ?_, rfl, ?_⟩
  · simp only [AVec.len, hna]
    simp [AVec.new, AVec.fill_ptr]
  · simp [AVec.new, AVec.is_allocated, AVec.fill_ptr]
  · intro c2
    simp only [AVec.new, AVec.is_allocated, AVec.fill_ptr, decide_eq_true_eq]
    omega

/-- Claim C10 witness: backing capacity 3. -/
theorem avec_new_fresh_witness :
    1 ≤ 3
    ∧ ((AVec.new Nat 3).len = some 0
      ∧ (AVec.new Nat 3).is_allocated = false
      ∧ (AVec.new Nat 3).fill_ptr = 0
      ∧ (AVec.new Nat 0).is_allocated = true
      ∧ (AVec.new Nat 0).inner = Internal.stack 0 []
      ∧ (∀ c2 : Nat, ((AVec.new Nat c2).is_allocated = true ↔ c2 = 0))) :=
  ⟨by decide, avec_new_fresh Nat 3 (by decide)⟩

/-- Claim C10 counterexample: over a zero-length backing, `len()` does not return 0 —
the spilled branch reads the union's never-written heap vector (undefined). -/
theorem avec_new_capacity_zero_len_undefined :
    ¬ ((AVec.new Nat 0).len = some 0) := by
  decide

end Stackalloc
